import Mathlib

/-!
Verification of the Triple1xRsi bot (src/bot.py).

The Python source is shallowly embedded: Python floats are modelled as
exact rationals (ℚ), Python ints as ℤ/ℕ, the mutable `state` dict as a
function `String → Option SymbolState`, and the fallible per-symbol
processing of the main loop as a function returning `Except`.
-/

namespace Bot

/-- Line 61 of src/bot.py: `deltas = [closes[i] - closes[i-1] for i in range(1, len(closes))]`. -/
def deltas (closes : List ℚ) : List ℚ :=
  List.zipWith (fun a b => a - b) closes.tail closes

/-- Line 62: `gains = [max(d, 0) for d in deltas]`. -/
def gains (closes : List ℚ) : List ℚ :=
  (deltas closes).map (fun d => max d 0)

/-- Line 63: `losses = [max(-d, 0) for d in deltas]`. -/
def losses (closes : List ℚ) : List ℚ :=
  (deltas closes).map (fun d => max (-d) 0)

/-- The Wilder smoothing loop of lines 68-70:
`avg = (avg * (period - 1) + x) / period` folded over the remaining values. -/
def wilder (period : ℕ) (seed : ℚ) (xs : List ℚ) : ℚ :=
  xs.foldl (fun avg x => (avg * ((period : ℚ) - 1) + x) / period) seed

/-- The `avg_gain` / `avg_loss` value of lines 65-70: seeded with the simple
average of the first `period` entries, then Wilder-smoothed over the rest. -/
def smoothedAvg (period : ℕ) (xs : List ℚ) : ℚ :=
  wilder period ((xs.take period).sum / period) (xs.drop period)

/-- Python `compute_rsi` (src/bot.py lines 57-76). Returns `none` (Python `None`)
when the window is shorter than `period + 1`. -/
def compute_rsi (closes : List ℚ) (period : ℕ) : Option ℚ :=
  if closes.length < period + 1 then none
  else if smoothedAvg period (losses closes) = 0 then some 100
  else some (100 - 100 /
    (1 + smoothedAvg period (gains closes) / smoothedAvg period (losses closes)))

/-- Per-symbol dedup record stored in the `state` dict: the optional
`"last_oversold"` / `"last_overbought"` keys (epoch-ms close times). -/
structure SymbolState where
  last_oversold : Option ℤ
  last_overbought : Option ℤ
deriving DecidableEq, Repr

/-- Direction tag of an emitted alert. -/
inductive Direction where
  | oversold
  | overbought
deriving DecidableEq, Repr

/-- Lines 173-182: the oversold-crossing block of `check_symbol`.
Returns the emitted alerts and the updated symbol state. -/
def evalOversold (oversold prev cur : ℚ) (t : ℤ) (s : SymbolState) :
    List Direction × SymbolState :=
  if oversold < prev ∧ cur ≤ oversold then
    if s.last_oversold ≠ some t then
      ([Direction.oversold], { s with last_oversold := some t })
    else ([], s)
  else ([], s)

/-- Lines 184-193: the overbought-crossing block of `check_symbol`. -/
def evalOverbought (overbought prev cur : ℚ) (t : ℤ) (s : SymbolState) :
    List Direction × SymbolState :=
  if prev < overbought ∧ overbought ≤ cur then
    if s.last_overbought ≠ some t then
      ([Direction.overbought], { s with last_overbought := some t })
    else ([], s)
  else ([], s)

/-- The crossing detector of `check_symbol` (lines 173-193): the two blocks
run sequentially on the same symbol state. -/
def evaluate (oversold overbought prev cur : ℚ) (t : ℤ) (s : SymbolState) :
    List Direction × SymbolState :=
  let r1 := evalOversold oversold prev cur t s
  let r2 := evalOverbought overbought prev cur t r1.2
  (r1.1 ++ r2.1, r2.2)

/-- The mutable `state` dict: a mapping from symbol to its dedup record. -/
def StateMap : Type := String → Option SymbolState

/-- Python `check_symbol` (lines 155-193), after the candle fetch: its effect on the
`state` mapping given the closed closes and close times. `state.setdefault`
is the `Option.getD` with the empty record; `closes[:-1]` is `dropLast`. -/
def check_symbol (symbol : String) (closes : List ℚ) (times : List ℤ)
    (period : ℕ) (oversold overbought : ℚ) (state : StateMap) : StateMap :=
  if closes.length < period + 2 then state
  else
    let t := times.getD (times.length - 1) 0
    let s := (state symbol).getD ⟨none, none⟩
    match compute_rsi closes period, compute_rsi closes.dropLast period with
    | some cur, some prev =>
        Function.update state symbol (some (evaluate oversold overbought prev cur t s).2)
    | _, _ => Function.update state symbol (some s)

/-- One poll cycle of `main` (lines 206-214): symbols are processed in order
with the in-memory state threaded through; a raising symbol is modelled by
`Except.error`, which (as in the single try/except of the source) stops the
loop and skips `save_state`. Result: (symbols actually processed,
final in-memory state, persisted snapshot or `none` when `save_state` was
skipped). -/
def run_cycle (process : String → StateMap → Except Unit StateMap) :
    List String → StateMap → List String × StateMap × Option StateMap
  | [], state => ([], state, some state)
  | sym :: rest, state =>
    match process sym state with
    | Except.ok st =>
        let r := run_cycle process rest st
        (sym :: r.1, r.2.1, r.2.2)
    | Except.error _ => ([], state, none)

/-- Sequentially process a list of symbols, `none` as soon as one fails:
used to phrase hypotheses about the prefix of a cycle that succeeded. -/
def processAll (process : String → StateMap → Except Unit StateMap) :
    List String → StateMap → Option StateMap
  | [], state => some state
  | sym :: rest, state =>
    match process sym state with
    | Except.ok st => processAll process rest st
    | Except.error _ => none

/-! ### Helper lemmas about the crossing detector -/

lemma evalOversold_fst (oversold prev cur : ℚ) (t : ℤ) (s : SymbolState) :
    (evalOversold oversold prev cur t s).1 =
      if (oversold < prev ∧ cur ≤ oversold) ∧ s.last_oversold ≠ some t then
        [Direction.oversold] else [] := by
  unfold evalOversold
  by_cases h1 : oversold < prev ∧ cur ≤ oversold
  · by_cases h2 : s.last_oversold ≠ some t
    · simp [h1, h2]
    · simp [h1, h2]
  · simp [h1]

lemma evalOversold_snd (oversold prev cur : ℚ) (t : ℤ) (s : SymbolState) :
    (evalOversold oversold prev cur t s).2 =
      if (oversold < prev ∧ cur ≤ oversold) ∧ s.last_oversold ≠ some t then
        { s with last_oversold := some t } else s := by
  unfold evalOversold
  by_cases h1 : oversold < prev ∧ cur ≤ oversold
  · by_cases h2 : s.last_oversold ≠ some t
    · simp [h1, h2]
    · simp [h1, h2]
  · simp [h1]

lemma evalOverbought_fst (overbought prev cur : ℚ) (t : ℤ) (s : SymbolState) :
    (evalOverbought overbought prev cur t s).1 =
      if (prev < overbought ∧ overbought ≤ cur) ∧ s.last_overbought ≠ some t then
        [Direction.overbought] else [] := by
  unfold evalOverbought
  by_cases h1 : prev < overbought ∧ overbought ≤ cur
  · by_cases h2 : s.last_overbought ≠ some t
    · simp [h1, h2]
    · simp [h1, h2]
  · simp [h1]

lemma evalOverbought_snd (overbought prev cur : ℚ) (t : ℤ) (s : SymbolState) :
    (evalOverbought overbought prev cur t s).2 =
      if (prev < overbought ∧ overbought ≤ cur) ∧ s.last_overbought ≠ some t then
        { s with last_overbought := some t } else s := by
  unfold evalOverbought
  by_cases h1 : prev < overbought ∧ overbought ≤ cur
  · by_cases h2 : s.last_overbought ≠ some t
    · simp [h1, h2]
    · simp [h1, h2]
  · simp [h1]

lemma evaluate_fst (oversold overbought prev cur : ℚ) (t : ℤ) (s : SymbolState) :
    (evaluate oversold overbought prev cur t s).1 =
      (if (oversold < prev ∧ cur ≤ oversold) ∧ s.last_oversold ≠ some t then
        [Direction.oversold] else []) ++
      (if (prev < overbought ∧ overbought ≤ cur) ∧ s.last_overbought ≠ some t then
        [Direction.overbought] else []) := by
  show (evalOversold oversold prev cur t s).1 ++ _ = _
  rw [evalOversold_fst, evalOverbought_fst, evalOversold_snd]
  by_cases h1 : (oversold < prev ∧ cur ≤ oversold) ∧ s.last_oversold ≠ some t
  · simp [h1]
  · simp [h1]

lemma evaluate_snd_oversold (oversold overbought prev cur : ℚ) (t : ℤ) (s : SymbolState) :
    (evaluate oversold overbought prev cur t s).2.last_oversold =
      if (oversold < prev ∧ cur ≤ oversold) ∧ s.last_oversold ≠ some t then
        some t else s.last_oversold := by
  show (evalOverbought overbought prev cur t (evalOversold oversold prev cur t s).2).2.last_oversold = _
  rw [evalOverbought_snd, evalOversold_snd]
  by_cases h1 : (oversold < prev ∧ cur ≤ oversold) ∧ s.last_oversold ≠ some t
  · by_cases h2 : (prev < overbought ∧ overbought ≤ cur) ∧
        ({ s with last_oversold := some t } : SymbolState).last_overbought ≠ some t
    · simp [h1, h2]
    · simp [h1, h2]
  · by_cases h2 : (prev < overbought ∧ overbought ≤ cur) ∧ s.last_overbought ≠ some t
    · simp [h1, h2]
    · simp [h1, h2]

lemma evaluate_snd_overbought (oversold overbought prev cur : ℚ) (t : ℤ) (s : SymbolState) :
    (evaluate oversold overbought prev cur t s).2.last_overbought =
      if (prev < overbought ∧ overbought ≤ cur) ∧ s.last_overbought ≠ some t then
        some t else s.last_overbought := by
  show (evalOverbought overbought prev cur t (evalOversold oversold prev cur t s).2).2.last_overbought = _
  rw [evalOverbought_snd, evalOversold_snd]
  by_cases h1 : (oversold < prev ∧ cur ≤ oversold) ∧ s.last_oversold ≠ some t
  · by_cases h2 : (prev < overbought ∧ overbought ≤ cur) ∧
        ({ s with last_oversold := some t } : SymbolState).last_overbought ≠ some t
    · simp [h1, h2]
    · simp [h1, h2]
  · by_cases h2 : (prev < overbought ∧ overbought ≤ cur) ∧ s.last_overbought ≠ some t
    · simp [h1, h2]
    · simp [h1, h2]

lemma mem_oversold_evaluate (oversold overbought prev cur : ℚ) (t : ℤ) (s : SymbolState) :
    Direction.oversold ∈ (evaluate oversold overbought prev cur t s).1 ↔
      (oversold < prev ∧ cur ≤ oversold) ∧ s.last_oversold ≠ some t := by
  rw [evaluate_fst]
  by_cases h1 : (oversold < prev ∧ cur ≤ oversold) ∧ s.last_oversold ≠ some t <;>
    by_cases h2 : (prev < overbought ∧ overbought ≤ cur) ∧ s.last_overbought ≠ some t <;>
    simp [h1, h2]

lemma mem_overbought_evaluate (oversold overbought prev cur : ℚ) (t : ℤ) (s : SymbolState) :
    Direction.overbought ∈ (evaluate oversold overbought prev cur t s).1 ↔
      (prev < overbought ∧ overbought ≤ cur) ∧ s.last_overbought ≠ some t := by
  rw [evaluate_fst]
  by_cases h1 : (oversold < prev ∧ cur ≤ oversold) ∧ s.last_oversold ≠ some t <;>
    by_cases h2 : (prev < overbought ∧ overbought ≤ cur) ∧ s.last_overbought ≠ some t <;>
    simp [h1, h2]

lemma evaluate_no_refire (oversold overbought prev cur : ℚ) (t : ℤ) (s2 : SymbolState)
    (ho : oversold < prev ∧ cur ≤ oversold → s2.last_oversold = some t)
    (hb : prev < overbought ∧ overbought ≤ cur → s2.last_overbought = some t) :
    evaluate oversold overbought prev cur t s2 = ([], s2) := by
  have e1 : evalOversold oversold prev cur t s2 = ([], s2) := by
    unfold evalOversold
    split_ifs with h1 h2
    · exact absurd (ho h1) h2
    · rfl
    · rfl
  have e2 : evalOverbought overbought prev cur t s2 = ([], s2) := by
    unfold evalOverbought
    split_ifs with h1 h2
    · exact absurd (hb h1) h2
    · rfl
    · rfl
  show ((evalOversold oversold prev cur t s2).1 ++
          (evalOverbought overbought prev cur t (evalOversold oversold prev cur t s2).2).1,
        (evalOverbought overbought prev cur t (evalOversold oversold prev cur t s2).2).2) =
      ([], s2)
  rw [e1]
  simp [e2]

/-! ### Claims about the crossing detector -/

/-- C2: the oversold alert fires exactly when `previousRSI > oversold`,
`currentRSI <= oversold` and the stored `last_oversold` differs from the last
close time; when it fires `last_oversold` is set to that close time (and is
left alone otherwise). In particular `previousRSI = 35, currentRSI = 28`
fires against `oversold = 30` with a fresh state, while
`previousRSI = 25, currentRSI = 28` does not. -/
theorem oversold_crossing_iff (oversold overbought prev cur : ℚ) (t : ℤ) (s : SymbolState) :
    (Direction.oversold ∈ (evaluate oversold overbought prev cur t s).1 ↔
      oversold < prev ∧ cur ≤ oversold ∧ s.last_oversold ≠ some t) ∧
    ((evaluate oversold overbought prev cur t s).2.last_oversold =
      if oversold < prev ∧ cur ≤ oversold ∧ s.last_oversold ≠ some t then
        some t else s.last_oversold) ∧
    Direction.oversold ∈ (evaluate 30 70 35 28 0 ⟨none, none⟩).1 ∧
    Direction.oversold ∉ (evaluate 30 70 25 28 0 ⟨none, none⟩).1 := by
  refine ⟨?_, ?_, ?_, ?_⟩
  · rw [mem_oversold_evaluate, and_assoc]
  · rw [evaluate_snd_oversold]
    simp [and_assoc]
  · rw [mem_oversold_evaluate]
    exact ⟨by norm_num, by simp⟩
  · rw [mem_oversold_evaluate]
    norm_num

/-- C4 counterexample: no combination of thresholds, RSI values and dedup
state makes a single evaluation emit both an OVERSOLD and an OVERBOUGHT
alert — the two crossing conditions are jointly unsatisfiable. -/
theorem no_both_alerts :
    ¬ ∃ (oversold overbought prev cur : ℚ) (t : ℤ) (s : SymbolState),
        Direction.oversold ∈ (evaluate oversold overbought prev cur t s).1 ∧
        Direction.overbought ∈ (evaluate oversold overbought prev cur t s).1 := by
  rintro ⟨oversold, overbought, prev, cur, t, s, h1, h2⟩
  rw [mem_oversold_evaluate] at h1
  rw [mem_overbought_evaluate] at h2
  obtain ⟨⟨hp1, hc1⟩, -⟩ := h1
  obtain ⟨⟨hp2, hc2⟩, -⟩ := h2
  linarith

/-- C4 amended: the two crossings are evaluated independently, but they can
never both fire in one call; every evaluation emits at most one alert. -/
theorem evaluate_at_most_one_alert (oversold overbought prev cur : ℚ) (t : ℤ)
    (s : SymbolState) :
    (evaluate oversold overbought prev cur t s).1.length ≤ 1 := by
  rw [evaluate_fst]
  by_cases h1 : (oversold < prev ∧ cur ≤ oversold) ∧ s.last_oversold ≠ some t
  · by_cases h2 : (prev < overbought ∧ overbought ≤ cur) ∧ s.last_overbought ≠ some t
    · exfalso
      obtain ⟨⟨hp1, hc1⟩, -⟩ := h1
      obtain ⟨⟨hp2, hc2⟩, -⟩ := h2
      linarith
    · simp [h1, h2]
  · by_cases h2 : (prev < overbought ∧ overbought ≤ cur) ∧ s.last_overbought ≠ some t <;>
      simp [h1, h2]

/-- C5: alerting is idempotent — after one evaluation, re-running the
evaluation with identical inputs (same close time) against the updated state
emits no alert and leaves the state unchanged. -/
theorem evaluate_idempotent (oversold overbought prev cur : ℚ) (t : ℤ) (s : SymbolState) :
    evaluate oversold overbought prev cur t (evaluate oversold overbought prev cur t s).2 =
      ([], (evaluate oversold overbought prev cur t s).2) := by
  apply evaluate_no_refire
  · intro hc
    rw [evaluate_snd_oversold]
    by_cases hd : s.last_oversold ≠ some t
    · simp [hc, hd]
    · push_neg at hd
      simp [hc, hd]
  · intro hc
    rw [evaluate_snd_overbought]
    by_cases hd : s.last_overbought ≠ some t
    · simp [hc, hd]
    · push_neg at hd
      simp [hc, hd]

/-- C9: with thresholds 30/70, `previousRSI = 69`, `currentRSI = 71` and a
dedup state not yet alerted for this close time, exactly one OVERBOUGHT
alert is emitted and the oversold dedup field is untouched. -/
theorem overbought_single_alert (t : ℤ) (s : SymbolState)
    (h : s.last_overbought ≠ some t) :
    (evaluate 30 70 69 71 t s).1 = [Direction.overbought] ∧
    (evaluate 30 70 69 71 t s).2.last_oversold = s.last_oversold := by
  have c1 : ¬ (((30 : ℚ) < 69 ∧ (71 : ℚ) ≤ 30) ∧ s.last_oversold ≠ some t) := by
    norm_num
  have c2 : ((69 : ℚ) < 70 ∧ (70 : ℚ) ≤ 71) ∧ s.last_overbought ≠ some t :=
    ⟨by norm_num, h⟩
  constructor
  · rw [evaluate_fst, if_neg c1, if_pos c2, List.nil_append]
  · rw [evaluate_snd_oversold, if_neg c1]

/-- C9 witness at a fresh dedup state and close time 0. -/
theorem overbought_single_alert_witness :
    ((⟨none, none⟩ : SymbolState).last_overbought ≠ some 0) ∧
    ((evaluate 30 70 69 71 0 ⟨none, none⟩).1 = [Direction.overbought] ∧
     (evaluate 30 70 69 71 0 ⟨none, none⟩).2.last_oversold =
       (⟨none, none⟩ : SymbolState).last_oversold) :=
  ⟨by simp, overbought_single_alert 0 ⟨none, none⟩ (by simp)⟩

/-! ### Claims about the orchestrator -/

/-- C10: one evaluation of `check_symbol` modifies at most the evaluated
entry of the evaluated symbol in the state mapping; the entry of every
other symbol is left unchanged. -/
theorem check_symbol_frame (symbol : String) (closes : List ℚ) (times : List ℤ)
    (period : ℕ) (oversold overbought : ℚ) (state : StateMap) (sym : String)
    (h : sym ≠ symbol) :
    check_symbol symbol closes times period oversold overbought state sym = state sym := by
  unfold check_symbol
  split_ifs with h1
  · rfl
  · cases compute_rsi closes period <;> cases compute_rsi closes.dropLast period <;>
      simp [Function.update_noteq h]

/-- C10 witness: evaluating BTCUSDT does not touch the ETHUSDT entry. -/
theorem check_symbol_frame_witness :
    ("ETHUSDT" : String) ≠ "BTCUSDT" ∧
    check_symbol "BTCUSDT" [] [] 14 30 70 (fun _ => none) "ETHUSDT" =
      (fun _ => (none : Option SymbolState)) "ETHUSDT" :=
  ⟨by decide, check_symbol_frame "BTCUSDT" [] [] 14 30 70 (fun _ => none) "ETHUSDT" (by decide)⟩

/-- C3 counterexample: with two symbols where the first raises, the second
symbol is not evaluated in that cycle and nothing is persisted (`save_state`
is skipped), contradicting the claimed per-symbol isolation. -/
theorem cycle_abort_counterexample :
    (run_cycle (fun sym st => if sym = "AAA" then Except.error () else Except.ok st)
        ["AAA", "BBB"] (fun _ => none)).1 = [] ∧
    (run_cycle (fun sym st => if sym = "AAA" then Except.error () else Except.ok st)
        ["AAA", "BBB"] (fun _ => none)).2.2 = none := by
  constructor <;> rfl

/-- C3 amended: the single try/except of `main` wraps the whole symbol loop
and `save_state`, so when a symbol raises, the symbols after it are not
evaluated and the persistence step is skipped for that cycle (the state
reached so far survives only in memory). -/
theorem cycle_aborts_on_failure (process : String → StateMap → Except Unit StateMap)
    (pre : List String) (s : String) (post : List String) (st st' : StateMap)
    (h1 : processAll process pre st = some st')
    (h2 : process s st' = Except.error ()) :
    run_cycle process (pre ++ s :: post) st = (pre, st', none) := by
  induction pre generalizing st with
  | nil =>
    obtain rfl : st = st' := by simpa [processAll] using h1
    simp only [List.nil_append, run_cycle, h2]
  | cons a rest ih =>
    rw [List.cons_append]
    cases hp : process a st with
    | ok st2 =>
      rw [processAll, hp] at h1
      have hr := ih st2 h1
      simp only [run_cycle, hp, hr]
    | error e =>
      rw [processAll, hp] at h1
      cases h1

/-- C3 amended witness: the first symbol succeeds, the second raises, the
third is never reached; the cycle returns with nothing persisted. -/
theorem cycle_aborts_on_failure_witness :
    processAll (fun sym st => if sym = "BBB" then Except.error () else Except.ok st)
        ["AAA"] (fun _ => none) = some (fun _ => none) ∧
    (fun (sym : String) (st : StateMap) =>
        if sym = "BBB" then Except.error () else Except.ok st) "BBB" (fun _ => none) =
      Except.error () ∧
    run_cycle (fun sym st => if sym = "BBB" then Except.error () else Except.ok st)
        (["AAA"] ++ "BBB" :: ["CCC"]) (fun _ => none) = (["AAA"], fun _ => none, none) :=
  ⟨rfl, rfl,
    cycle_aborts_on_failure
      (fun sym st => if sym = "BBB" then Except.error () else Except.ok st)
      ["AAA"] "BBB" ["CCC"] (fun _ => none) (fun _ => none) rfl rfl⟩

/-- C6: on a window shorter than `period + 1` closes, `compute_rsi` returns
the `none` sentinel (the guard returns before any arithmetic is done). -/
theorem compute_rsi_short_window (closes : List ℚ) (period : ℕ)
    (h : closes.length < period + 1) :
    compute_rsi closes period = none := by
  unfold compute_rsi
  rw [if_pos h]

/-- C6 witness: two closes with the default period 14. -/
theorem compute_rsi_short_window_witness :
    ([(1 : ℚ), 2] : List ℚ).length < 14 + 1 ∧ compute_rsi [1, 2] 14 = none :=
  ⟨by decide, compute_rsi_short_window [1, 2] 14 (by decide)⟩

/-! ### Positivity and vanishing lemmas for the smoothing loop -/

lemma wilder_zero (period : ℕ) (xs : List ℚ) (h : ∀ x ∈ xs, x = 0) :
    wilder period 0 xs = 0 := by
  induction xs with
  | nil => rfl
  | cons a l ih =>
    have ha : a = 0 := h a (List.mem_cons_self a l)
    unfold wilder at ih ⊢
    rw [List.foldl_cons, ha]
    simpa using ih (fun x hx => h x (List.mem_cons_of_mem a hx))

lemma wilder_nonneg (period : ℕ) (hp : 0 < period) (xs : List ℚ) :
    ∀ seed : ℚ, 0 ≤ seed → (∀ x ∈ xs, 0 ≤ x) → 0 ≤ wilder period seed xs := by
  induction xs with
  | nil => exact fun seed hs _ => hs
  | cons a l ih =>
    intro seed hs hx
    unfold wilder at ih ⊢
    rw [List.foldl_cons]
    apply ih
    · apply div_nonneg _ (Nat.cast_nonneg period)
      apply add_nonneg (mul_nonneg hs _) (hx a (List.mem_cons_self a l))
      have hone : (1 : ℚ) ≤ period := by exact_mod_cast hp
      linarith
    · exact fun x hx2 => hx x (List.mem_cons_of_mem a hx2)

lemma gains_nonneg (closes : List ℚ) : ∀ x ∈ gains closes, 0 ≤ x := by
  intro x hx
  simp only [gains, List.mem_map] at hx
  obtain ⟨d, -, rfl⟩ := hx
  exact le_max_right d 0

lemma losses_nonneg (closes : List ℚ) : ∀ x ∈ losses closes, 0 ≤ x := by
  intro x hx
  simp only [losses, List.mem_map] at hx
  obtain ⟨d, -, rfl⟩ := hx
  exact le_max_right (-d) 0

lemma smoothedAvg_nonneg (period : ℕ) (hp : 0 < period) (xs : List ℚ)
    (hx : ∀ x ∈ xs, 0 ≤ x) : 0 ≤ smoothedAvg period xs := by
  unfold smoothedAvg
  apply wilder_nonneg period hp
  · exact div_nonneg
      (List.sum_nonneg fun x h => hx x (List.take_subset _ _ h))
      (Nat.cast_nonneg period)
  · exact fun x h => hx x (List.drop_subset _ _ h)

/-- C7: on a window of at least `period + 1` closes whose consecutive deltas
are all nonnegative, every loss is zero, the smoothed average loss is exactly
zero, and `compute_rsi` returns exactly 100. -/
theorem compute_rsi_uptrend (closes : List ℚ) (period : ℕ) (hp : 0 < period)
    (hlen : period + 1 ≤ closes.length) (hmono : ∀ d ∈ deltas closes, 0 ≤ d) :
    compute_rsi closes period = some 100 := by
  have hl0 : ∀ x ∈ losses closes, x = 0 := by
    intro x hx
    simp only [losses, List.mem_map] at hx
    obtain ⟨d, hd, rfl⟩ := hx
    exact max_eq_right (neg_nonpos.mpr (hmono d hd))
  have hAL : smoothedAvg period (losses closes) = 0 := by
    unfold smoothedAvg
    rw [List.sum_eq_zero (fun x hx => hl0 x (List.take_subset _ _ hx)), zero_div]
    exact wilder_zero period _ (fun x hx => hl0 x (List.drop_subset _ _ hx))
  unfold compute_rsi
  rw [if_neg (by omega), if_pos hAL]

/-- C7 witness: strictly increasing closes [1, 2, 3] with period 2. -/
theorem compute_rsi_uptrend_witness :
    compute_rsi [1, 2, 3] 2 = some 100 :=
  compute_rsi_uptrend [1, 2, 3] 2 (by norm_num) (by norm_num)
    (by norm_num [deltas])

/-- C8: every defined RSI value lies in the interval [0, 100]. -/
theorem compute_rsi_range (closes : List ℚ) (period : ℕ) (hp : 0 < period)
    (r : ℚ) (h : compute_rsi closes period = some r) : 0 ≤ r ∧ r ≤ 100 := by
  unfold compute_rsi at h
  split_ifs at h with h1 h2
  · obtain rfl : (100 : ℚ) = r := by simpa using h
    norm_num
  · have hAG : 0 ≤ smoothedAvg period (gains closes) :=
      smoothedAvg_nonneg period hp _ (gains_nonneg closes)
    have hAL : 0 ≤ smoothedAvg period (losses closes) :=
      smoothedAvg_nonneg period hp _ (losses_nonneg closes)
    have hALpos : 0 < smoothedAvg period (losses closes) :=
      lt_of_le_of_ne hAL (Ne.symm h2)
    have hrs : 0 ≤ smoothedAvg period (gains closes) / smoothedAvg period (losses closes) :=
      div_nonneg hAG hAL
    obtain rfl : 100 - 100 /
        (1 + smoothedAvg period (gains closes) / smoothedAvg period (losses closes)) = r := by
      simpa using h
    constructor
    · have hle : 100 /
          (1 + smoothedAvg period (gains closes) / smoothedAvg period (losses closes)) ≤ 100 :=
        div_le_self (by norm_num) (by linarith)
      linarith
    · have hge : 0 ≤ 100 /
          (1 + smoothedAvg period (gains closes) / smoothedAvg period (losses closes)) :=
        div_nonneg (by norm_num) (by linarith)
      linarith

/-- C8 witness: a mixed window whose RSI is 250/3. -/
theorem compute_rsi_range_witness :
    0 ≤ (250 / 3 : ℚ) ∧ (250 / 3 : ℚ) ≤ 100 :=
  compute_rsi_range [10, 11, 10, 12] 2 (by norm_num) (250 / 3)
    (by norm_num [compute_rsi, smoothedAvg, gains, losses, deltas, wilder])

/-! ### The Wilder reference definition, written from the words of the spec -/

/-- Spec §4.1 step 1: `deltas[i] = closes[i] - closes[i-1]` for
`i = 1 .. len-1`, reindexed by `j = i - 1` over `range (len - 1)`. -/
def specDeltas (closes : List ℚ) : List ℚ :=
  (List.range (closes.length - 1)).map
    (fun j => closes.getD (j + 1) 0 - closes.getD j 0)

/-- Spec §4.1 step 4: the Wilder recurrence
`avg = (avg * (period-1) + xs[i]) / period`, applied for the `n` indices
`i = period .. period + n - 1` of the gain/loss sequence `xs`. -/
def specSmooth (period : ℕ) (xs : List ℚ) (seed : ℚ) : ℕ → ℚ
  | 0 => seed
  | n + 1 =>
      (specSmooth period xs seed n * ((period : ℚ) - 1) + xs.getD (period + n) 0) /
        period

/-- Spec §4.1 steps 3-4: seed with the simple average of the first `period`
entries, then run the recurrence through the last delta index. -/
def specAvg (period : ℕ) (xs : List ℚ) : ℚ :=
  specSmooth period xs ((xs.take period).sum / (period : ℚ)) (xs.length - period)

/-- Modelled from the spec: the full Wilder reference RSI of spec §4.1
(steps 1-6), against which `compute_rsi` is compared. -/
def rsi_spec (closes : List ℚ) (period : ℕ) : Option ℚ :=
  if closes.length < period + 1 then none
  else if specAvg period ((specDeltas closes).map (fun d => max (-d) 0)) = 0 then
    some 100
  else some (100 - 100 /
    (1 + specAvg period ((specDeltas closes).map (fun d => max d 0)) /
      specAvg period ((specDeltas closes).map (fun d => max (-d) 0))))

lemma deltas_length (closes : List ℚ) :
    (deltas closes).length = closes.length - 1 := by
  rw [deltas, List.length_zipWith, List.length_tail]
  omega

lemma specDeltas_eq (closes : List ℚ) : specDeltas closes = deltas closes := by
  apply List.ext_getElem
  · rw [specDeltas, List.length_map, List.length_range, deltas_length]
  · intro i h1 h2
    have hi : i < closes.length - 1 := by
      simpa [specDeltas] using h1
    simp only [specDeltas, deltas, List.getElem_map, List.getElem_range,
      List.getElem_zipWith, List.getElem_tail]
    rw [List.getD_eq_getElem closes 0 (show i + 1 < closes.length by omega),
      List.getD_eq_getElem closes 0 (show i < closes.length by omega)]

lemma wilder_append (period : ℕ) (seed : ℚ) (l : List ℚ) (a : ℚ) :
    wilder period seed (l ++ [a]) =
      (wilder period seed l * ((period : ℚ) - 1) + a) / period := by
  unfold wilder
  rw [List.foldl_append, List.foldl_cons, List.foldl_nil]

lemma wilder_take_eq_specSmooth (period : ℕ) (xs : List ℚ) (seed : ℚ) :
    ∀ n, period + n ≤ xs.length →
      wilder period seed ((xs.drop period).take n) = specSmooth period xs seed n := by
  intro n
  induction n with
  | zero => intro _; rfl
  | succ n ih =>
    intro hn
    have hidx : n < (xs.drop period).length := by
      rw [List.length_drop]
      omega
    have htake : (xs.drop period).take (n + 1) =
        (xs.drop period).take n ++ [(xs.drop period).get ⟨n, hidx⟩] := by
      rw [List.take_succ, List.getElem?_eq_getElem hidx]
      rfl
    have hgd : (xs.drop period).get ⟨n, hidx⟩ = xs.getD (period + n) 0 := by
      show (xs.drop period)[n] = xs.getD (period + n) 0
      rw [List.getElem_drop, List.getD_eq_getElem xs 0 (show period + n < xs.length by omega)]
    rw [htake, wilder_append, ih (by omega), hgd, specSmooth]

lemma specAvg_eq_smoothedAvg (period : ℕ) (xs : List ℚ) (h : period ≤ xs.length) :
    smoothedAvg period xs = specAvg period xs := by
  unfold smoothedAvg specAvg
  rw [← wilder_take_eq_specSmooth period xs _ (xs.length - period) (by omega)]
  congr 1
  rw [List.take_of_length_le]
  rw [List.length_drop]

/-- C1: on every window of at least `period + 1` closes with positive
`period`, `compute_rsi` coincides with the Wilder reference definition
`rsi_spec` transcribed from the spec. -/
theorem compute_rsi_eq_rsi_spec (closes : List ℚ) (period : ℕ) (hp : 0 < period)
    (hlen : period + 1 ≤ closes.length) :
    compute_rsi closes period = rsi_spec closes period := by
  have hd : specDeltas closes = deltas closes := specDeltas_eq closes
  have hlg : period ≤ ((deltas closes).map (fun d => max d 0)).length := by
    rw [List.length_map, deltas_length]
    omega
  have hll : period ≤ ((deltas closes).map (fun d => max (-d) 0)).length := by
    rw [List.length_map, deltas_length]
    omega
  have hg : specAvg period ((specDeltas closes).map (fun d => max d 0)) =
      smoothedAvg period (gains closes) := by
    rw [hd]
    exact (specAvg_eq_smoothedAvg period _ hlg).symm
  have hl : specAvg period ((specDeltas closes).map (fun d => max (-d) 0)) =
      smoothedAvg period (losses closes) := by
    rw [hd]
    exact (specAvg_eq_smoothedAvg period _ hll).symm
  unfold compute_rsi rsi_spec
  rw [hg, hl]

/-- C1 witness: a mixed up/down window, period 2. -/
theorem compute_rsi_eq_rsi_spec_witness :
    compute_rsi [10, 11, 10, 12] 2 = rsi_spec [10, 11, 10, 12] 2 :=
  compute_rsi_eq_rsi_spec [10, 11, 10, 12] 2 (by norm_num) (by norm_num)

end Bot
